import Mathlib

/-!
Verification of the pmk_string / pmk_arena C library (pmk_string.h, pmk_arena.h).

Modelling conventions of this shallow embedding:
* A C byte string (the String view type, a data pointer plus a length) is a
  `List Nat` of byte values; the pointer identity is irrelevant to the pure
  string functions, only the referenced byte sequence matters.
* size_t arithmetic is carried out in `Nat`; where an underflow or overflow of
  the 64-bit machine word is actually reachable we compute modulo `2 ^ 64`
  explicitly (see `szsub`).  `int` results are `Int`.
* Loops that scan an index upward are written with an explicit fuel argument
  that strictly bounds the number of iterations, so that every definition
  is structurally recursive and evaluates by kernel reduction; the fuel chosen
  at each call site is proved sufficient by the accompanying lemmas.
-/

/-- The sign-relevant content of `memcmp(a, b, n)`: 0 when the first `n` bytes
agree, otherwise the difference of the first differing pair of bytes
(as unsigned chars, which is what memcmp compares).  Reading past the end of
either sequence is undefined behaviour in C; the model returns 0 there, and
every call site below passes `n` bounded by both lengths. -/
def memcmpM : List Nat → List Nat → Nat → Int
  | _, _, 0 => 0
  | [], _, _ + 1 => 0
  | _ :: _, [], _ + 1 => 0
  | x :: xs, y :: ys, n + 1 => if x = y then memcmpM xs ys n else (x : Int) - (y : Int)

/-- Model of `string_equal` from pmk_string.h: length test, then whole-length memcmp. -/
def string_equal (s1 s2 : List Nat) : Bool :=
  if s1.length ≠ s2.length then false
  else decide (memcmpM s1 s2 s1.length = 0)

/-- Model of `string_equaln` from pmk_string.h: if either string is shorter than `n`,
returns false; otherwise memcmp over the first `n` bytes. -/
def string_equaln (s1 s2 : List Nat) (n : Nat) : Bool :=
  if s1.length < n ∨ s2.length < n then false
  else decide (memcmpM s1 s2 n = 0)

/-- Model of `string_compare` from pmk_string.h: memcmp over the shorter length; on a
tie the shorter string comes first. -/
def string_compare (s1 s2 : List Nat) : Int :=
  let min_len := if s1.length < s2.length then s1.length else s2.length
  let cmp := memcmpM s1 s2 min_len
  if cmp = 0 then
    if s1.length = s2.length then 0
    else if s1.length < s2.length then -1 else 1
  else cmp

/-- The negative-index normalization performed by `string_substr`: a negative
index gets the length added to it. -/
def substr_norm (v : Int) (len : Nat) : Int := if v < 0 then v + len else v

/-- Model of `string_substr` from pmk_string.h.  The C function asserts
`0 <= start <= end <= len` after normalization; a run violating an assertion
aborts the process, modelled by returning the empty view (no theorem below
concerns such runs). -/
def string_substr (s : List Nat) (start stop : Int) : List Nat :=
  let start2 := substr_norm start s.length
  let stop2 := substr_norm stop s.length
  if 0 ≤ start2 ∧ 0 ≤ stop2 ∧ start2 ≤ stop2 ∧ stop2 ≤ (s.length : Int) then
    (s.drop start2.toNat).take (stop2.toNat - start2.toNat)
  else []

/-- A needle match at byte position `i` of the haystack: the needle fits and
the `n.length` bytes of `h` starting at `i` coincide with `n`. -/
def matchAt (h n : List Nat) (i : Nat) : Prop :=
  i + n.length ≤ h.length ∧ (h.drop i).take n.length = n

instance matchAt_dec (h n : List Nat) (i : Nat) : Decidable (matchAt h n i) := by
  unfold matchAt; infer_instance

/-- The scan loop of `string_find`: try indices `i, i+1, ...` while
`i <= haystack.len - needle.len` (written `i + n.length ≤ h.length`; the two
are equivalent under the `n.length ≤ h.length` guard of `string_find`).
The fuel argument strictly bounds the iteration count; `string_find` passes
`h.length + 1`, which `findLoop_spec` proves sufficient. -/
def findLoop (h n : List Nat) : Nat → Nat → Nat
  | _, 0 => h.length
  | i, fuel + 1 =>
    if i + n.length ≤ h.length then
      if memcmpM (h.drop i) n n.length = 0 then i
      else findLoop h n (i + 1) fuel
    else h.length

/-- Model of `string_find` from pmk_string.h: naive scan, `haystack.len` sentinel. -/
def string_find (h n : List Nat) : Nat :=
  if n.length > h.length then h.length else findLoop h n 0 (h.length + 1)

/-- The StringBuilder struct of pmk_string.h: a byte buffer of `cap` cells of
which the first `len` are the current contents.  `data` models the whole
allocated block, so well-formedness (`sbWF`) states `data.length = cap`. -/
structure SB where
  data : List Nat
  len : Nat
  cap : Nat
deriving DecidableEq

/-- Well-formed builder: the modelled block really has `cap` bytes and the
used length does not exceed the capacity. -/
def sbWF (b : SB) : Prop := b.data.length = b.cap ∧ b.len ≤ b.cap

/-- The current string contents of a builder (what `builder_to_string`
exposes). -/
def contents (b : SB) : List Nat := b.data.take b.len

/-- The null-terminated invariant of the spec: the byte at index `len` is 0
and `len <= cap - 1` (stated additively so it is meaningful for `cap = 0`). -/
def nullTerm (b : SB) : Prop := b.data[b.len]? = some 0 ∧ b.len + 1 ≤ b.cap

instance sbWF_dec (b : SB) : Decidable (sbWF b) := by
  unfold sbWF; infer_instance

instance nullTerm_dec (b : SB) : Decidable (nullTerm b) := by
  unfold nullTerm; infer_instance

/-- Model of `memcpy`/`memmove` into `buf` at byte offset `pos` from the source bytes
`src`; the functional read-then-write semantics is exactly memmove's. -/
def listWrite (buf : List Nat) (pos : Nat) (src : List Nat) : List Nat :=
  buf.take pos ++ (src ++ buf.drop (pos + src.length))

/-- errno value ENOBUFS (Linux); the code returns its negation. -/
def ENOBUFS : Int := 105

/-- Model of `builder_append_fixed` from pmk_string.h: on insufficient space it
returns -ENOBUFS leaving the builder untouched; otherwise it copies the
bytes, advances `len`, and writes the nul terminator (the memcpy followed by
the terminator store is one contiguous write of `s ++ [0]` at offset
`len`). -/
def builder_append_fixed (b : SB) (s : List Nat) : Int × SB :=
  if b.cap < b.len + s.length + 1 then (-ENOBUFS, b)
  else (0, { data := listWrite b.data b.len (s ++ [0]),
             len := b.len + s.length, cap := b.cap })

/-- size_t subtraction `a - b` modulo 2 ^ 64 (both operands are machine
values below 2 ^ 64; the replace functions really can underflow here). -/
def szsub (a b : Nat) : Nat := (a + (2 ^ 64 - b % 2 ^ 64)) % 2 ^ 64

/-- The size_t expression `builder->len - x.len + y.len` computed by both
replace functions, with its possible 2 ^ 64 wraparound. -/
def replaceNewLen (b : SB) (x y : List Nat) : Nat :=
  (szsub b.len x.length + y.length) % 2 ^ 64

/-- Model of `builder_replace_fixed` from pmk_string.h: replaces the first occurrence
of `x` by `y`; returns -1 when `x` is empty, when the result would not fit,
or when `x` does not occur, touching nothing in those cases.  On success the
tail is moved, `y` copied into the gap, and the terminator written. -/
def builder_replace_fixed (b : SB) (x y : List Nat) : Int × SB :=
  if x.length = 0 then (-1, b)
  else
    let new_len := replaceNewLen b x y
    if (new_len + 1) % 2 ^ 64 > b.cap then (-1, b)
    else
      let x_in_b := string_find (contents b) x
      if x_in_b = (contents b).length then (-1, b)
      else
        let rest := (b.data.drop (x_in_b + x.length)).take (b.len - x_in_b - x.length)
        let d1 := listWrite b.data (x_in_b + y.length) rest
        let d2 := listWrite d1 x_in_b y
        (0, { data := listWrite d2 new_len [0], len := new_len, cap := b.cap })

/-- The negative-index normalization performed by the splice functions:
a negative index gets the builder length added to it. -/
def splice_norm (v : Int) (len : Nat) : Int := if v < 0 then v + len else v

/-- Model of `builder_splice_fixed` from pmk_string.h.  The four asserts on the
normalized indices are modelled as a guard; an assert-violating run aborts
the C process and is modelled as returning the builder unchanged (no theorem
below concerns such runs).  On the valid path: if the new length plus
terminator does not fit, -1 and untouched; otherwise move the tail, copy the
view in, set the length, and write the terminator. -/
def builder_splice_fixed (b : SB) (start stop : Int) (s : List Nat) : Int × SB :=
  let start2 := splice_norm start b.len
  let stop2 := splice_norm stop b.len
  if 0 ≤ start2 ∧ 0 ≤ stop2 ∧ start2 ≤ stop2 ∧ stop2 ≤ (b.len : Int) then
    let st := start2.toNat
    let en := stop2.toNat
    let nremove := en - st
    let new_len := b.len - nremove + s.length
    if new_len + 1 > b.cap then (-1, b)
    else
      let rest := (b.data.drop en).take (b.len - en)
      let d1 := listWrite b.data (st + s.length) rest
      let d2 := listWrite d1 st s
      (0, { data := listWrite d2 new_len [0], len := new_len, cap := b.cap })
  else (0, b)

/-- Model of `builder_print_fixed` from pmk_string.h, with the platform formatting
primitive abstracted per the spec scope: `out` stands for the full formatted
output that vsnprintf would produce from the format string and arguments.
vsnprintf into `rem` bytes writes `min (rem - 1) out.length` bytes plus a
terminator (nothing at all when `rem = 0`) and returns the full length
`out.length`, from which the code computes `num_trunc = required - rem` in
int arithmetic; a positive value is returned as the count of truncated
bytes after setting `len = cap - 1`. -/
def builder_print_fixed (b : SB) (out : List Nat) : Int × SB :=
  let required : Nat := out.length + 1
  let rem : Nat := b.cap - b.len
  let d1 := if rem = 0 then b.data
    else listWrite b.data b.len (out.take (rem - 1) ++ [0])
  let num_trunc : Int := (required : Int) - (rem : Int)
  if num_trunc > 0 then (num_trunc, { data := d1, len := b.cap - 1, cap := b.cap })
  else (0, { data := d1, len := b.len + (required - 1), cap := b.cap })

/-- Reallocation through the PMK_REALLOC hook as used by the growth paths:
the block becomes `newCap` bytes, contents up to `min (old length) newCap`
are preserved, fresh bytes carry unspecified values modelled as 0.  Every
call below strictly grows the block. -/
def growTo (b : SB) (newCap : Nat) : SB :=
  { data := b.data.take newCap ++ List.replicate (newCap - b.data.length) 0,
    len := b.len, cap := newCap }

/-- Model of `builder_reserve_context` from pmk_string.h: no-op when the capacity
already suffices, otherwise store the new capacity and reallocate. -/
def builder_reserve_context (b : SB) (cap : Nat) : SB :=
  if b.cap ≥ cap then b else growTo b cap

/-- The inline growth step of append and print:
`if (cap < new_len + 1) then cap = MAX(cap * 2, new_len + 1); realloc`. -/
def appendGrow (b : SB) (new_len : Nat) : SB :=
  if b.cap < new_len + 1 then growTo b (max (b.cap * 2) (new_len + 1)) else b

/-- The growth step of splice:
`if (new_len + 1 > cap) then builder_reserve_context(max(cap * 2, new_len + 1))`. -/
def spliceGrow (b : SB) (new_len : Nat) : SB :=
  if new_len + 1 > b.cap
  then builder_reserve_context b (max (b.cap * 2) (new_len + 1))
  else b

/-- The growth step of replace, identical to the splice one except that its
`new_len + 1` is a size_t value that may have wrapped around. -/
def replaceGrow (b : SB) (new_len : Nat) : SB :=
  if (new_len + 1) % 2 ^ 64 > b.cap
  then builder_reserve_context b (max (b.cap * 2) ((new_len + 1) % 2 ^ 64))
  else b

/-- Model of `builder_append_context` from pmk_string.h: when the terminator would not
fit, grow inline to `max (2 * cap) (new_len + 1)`; then memcpy the bytes at
offset `len` followed by the nul store (one contiguous write of
`s ++ [0]`). -/
def builder_append_context (b : SB) (s : List Nat) : SB :=
  let new_len := b.len + s.length
  let b1 := appendGrow b new_len
  { data := listWrite b1.data b.len (s ++ [0]), len := new_len, cap := b1.cap }

/-- Model of `builder_print_context` from pmk_string.h, the formatting primitive
abstracted as in `builder_print_fixed`: the dry-run vsnprintf reports
`out.length` additional bytes, growth happens exactly as in append, then the
second vsnprintf writes `min (rem - 1) out.length` bytes plus terminator
into the tail (`rem = cap - len`; nothing is written when `rem = 0`, which
the growth makes unreachable). -/
def builder_print_context (b : SB) (out : List Nat) : SB :=
  let new_len := b.len + out.length
  let b1 := appendGrow b new_len
  let rem := b1.cap - b.len
  let d1 := if rem = 0 then b1.data
    else listWrite b1.data b.len (out.take (rem - 1) ++ [0])
  { data := d1, len := new_len, cap := b1.cap }

/-- Model of `builder_replace_context` from pmk_string.h: nothing happens for an empty
`x`; the buffer grows (via `builder_reserve_context`) before the search; if
`x` is not found the (possibly grown) builder is returned; otherwise the
tail after `x` is memmoved, `y` copied into the gap, and length and
terminator set.  `new_len` is the size_t expression `len - x.len + y.len`
(wraparound included); the capacity doubling `cap * 2` is left unreduced, it
cannot reach 2 ^ 64 in a live process. -/
def builder_replace_context (b : SB) (x y : List Nat) : SB :=
  if x.length = 0 then b
  else
    let new_len := replaceNewLen b x y
    let b1 := replaceGrow b new_len
    let x_in_b := string_find (contents b1) x
    if x_in_b = (contents b1).length then b1
    else
      let rest := (b1.data.drop (x_in_b + x.length)).take (b1.len - x_in_b - x.length)
      let d1 := listWrite b1.data (x_in_b + y.length) rest
      let d2 := listWrite d1 x_in_b y
      { data := listWrite d2 new_len [0], len := new_len, cap := b1.cap }

/-- Model of `builder_splice_context` from pmk_string.h: normalize the indices, assert
their validity (an assert-violating run aborts the C process and is modelled
as returning the builder unchanged; no theorem concerns such runs), grow via
`builder_reserve_context` if the new length plus terminator does not fit,
memmove the tail, copy the view in, set length and terminator. -/
def builder_splice_context (b : SB) (start stop : Int) (s : List Nat) : SB :=
  let start2 := splice_norm start b.len
  let stop2 := splice_norm stop b.len
  if 0 ≤ start2 ∧ 0 ≤ stop2 ∧ start2 ≤ stop2 ∧ stop2 ≤ (b.len : Int) then
    let st := start2.toNat
    let en := stop2.toNat
    let nremove := en - st
    let new_len := b.len - nremove + s.length
    let b1 := spliceGrow b new_len
    let rest := (b1.data.drop en).take (b.len - en)
    let d1 := listWrite b1.data (st + s.length) rest
    let d2 := listWrite d1 st s
    { data := listWrite d2 new_len [0], len := new_len, cap := b1.cap }
  else b

/-- The bytes one fgets call consumes from the stream: at most `n` bytes
(`n = avail - 1`), stopping right after a newline. -/
def chunkTake : Nat → List Nat → List Nat
  | 0, _ => []
  | _ + 1, [] => []
  | n + 1, c :: rest => if c = 10 then [c] else c :: chunkTake n rest

/-- C strlen: the index of the first nul byte of the buffer. -/
def cstrlen (l : List Nat) : Nat := (l.takeWhile (fun c => c != 0)).length

/-- Model of `builder_getline_fixed` from pmk_string.h.  The FILE stream is the list
of its remaining bytes; fgets reads up to `avail - 1` bytes stopping after a
newline and nul-terminates them, returning NULL only at EOF with nothing
read (a stream error makes the C function exit the process; the modelled
stream cannot fail).  After a successful fgets the code sets
`len = strlen(data)` — from the start of the whole buffer — then strips a
trailing newline (returning 0 with the newline byte left at `data[len]`),
returns 0 at end of file (fgets stopped before exhausting `avail`), and
otherwise reports the over-long line with -ENOBUFS. -/
def builder_getline_fixed (b : SB) (stream : List Nat) : Int × SB × List Nat :=
  if b.cap = 0 then (-ENOBUFS, b, stream)
  else if stream = [] then (0, { b with len := 0 }, stream)
  else
    let avail := b.cap - b.len
    let chunk := chunkTake (avail - 1) stream
    let rest := stream.drop chunk.length
    let d1 := listWrite b.data b.len (chunk ++ [0])
    let len1 := cstrlen d1
    if d1[len1 - 1]? = some 10 then
      (0, { data := d1, len := len1 - 1, cap := b.cap }, rest)
    else if chunk.length < avail - 1 then
      (0, { data := d1, len := len1, cap := b.cap }, rest)
    else (-ENOBUFS, { data := d1, len := len1, cap := b.cap }, rest)

/-- Model of `builder_read_file_fixed` from pmk_string.h, for a successfully opened
and stat-ed file whose bytes are `file` (an open/stat/read/close failure
returns -errno before touching `len` and is outside this model).  A file
larger than the capacity gives -ENOBUFS; otherwise fread deposits
`min (cap, file size)` bytes at the start of the block and `len` becomes the
file size.  No terminator is written. -/
def builder_read_file_fixed (b : SB) (file : List Nat) : Int × SB :=
  if file.length > b.cap then (-ENOBUFS, b)
  else (0, { data := listWrite b.data 0 (file.take b.cap),
             len := file.length, cap := b.cap })

/-- C locale isspace. -/
def isspaceB (c : Nat) : Bool := c = 32 || (9 ≤ c && c ≤ 13)

/-- Decimal digit test. -/
def isdigitB (c : Nat) : Bool := 48 ≤ c && c ≤ 57

/-- Octal digit test. -/
def isodigitB (c : Nat) : Bool := 48 ≤ c && c ≤ 55

/-- Hexadecimal digit test. -/
def isxdigitB (c : Nat) : Bool :=
  (48 ≤ c && c ≤ 57) || (97 ≤ c && c ≤ 102) || (65 ≤ c && c ≤ 70)

/-- Numeric value of a digit byte (0 for non-digits, never reached). -/
def hexVal (c : Nat) : Nat :=
  if 48 ≤ c && c ≤ 57 then c - 48
  else if 97 ≤ c && c ≤ 102 then c - 87
  else if 65 ≤ c && c ≤ 70 then c - 55
  else 0

/-- Value of a digit run in the given base. -/
def digitsVal (base acc : Nat) : List Nat → Nat
  | [] => acc
  | c :: rest => digitsVal base (acc * base + hexVal c) rest

/-- Does the byte at index `i` exist and is it a hex digit. -/
def isHexAt (s : List Nat) (i : Nat) : Bool :=
  match s[i]? with
  | some c => isxdigitB c
  | none => false

def LONG_MAX : Int := 2 ^ 63 - 1

def LONG_MIN : Int := -(2 ^ 63)

def INT_MAX : Int := 2 ^ 31 - 1

def INT_MIN : Int := -(2 ^ 31)

/-- strtol clamping: values beyond the long range are clamped to
LONG_MAX/LONG_MIN with errno = ERANGE (the Bool). -/
def clampLong (v : Int) (consumed : Nat) : Int × Nat × Bool :=
  if v > LONG_MAX then (LONG_MAX, consumed, true)
  else if v < LONG_MIN then (LONG_MIN, consumed, true)
  else (v, consumed, false)

/-- strtol(nptr, endptr, 0) on a C string given as its byte list: skip
isspace bytes, optional sign, then base detection — a 0x/0X prefix followed
by a hex digit selects base 16, else a leading 0 selects base 8 (the 0
itself being a consumed digit, which also covers a bare "0x" with no hex
digit after it), else base 10 where at least one digit is required or no
conversion is performed (value 0, zero bytes consumed, endptr = nptr).
Returns (value clamped to long, index just past the last consumed digit,
ERANGE flag). -/
def strtolM (s : List Nat) : Int × Nat × Bool :=
  let ws := (s.takeWhile isspaceB).length
  let sign : Int := if s[ws]? == some 45 then -1 else 1
  let i1 := if s[ws]? == some 43 || s[ws]? == some 45 then ws + 1 else ws
  if s[i1]? == some 48 && (s[i1 + 1]? == some 120 || s[i1 + 1]? == some 88)
      && isHexAt s (i1 + 2) then
    let ds := (s.drop (i1 + 2)).takeWhile isxdigitB
    clampLong (sign * (digitsVal 16 0 ds : Int)) (i1 + 2 + ds.length)
  else if s[i1]? == some 48 then
    let ds := (s.drop i1).takeWhile isodigitB
    clampLong (sign * (digitsVal 8 0 ds : Int)) (i1 + ds.length)
  else
    let ds := (s.drop i1).takeWhile isdigitB
    if ds.length = 0 then (0, 0, false)
    else clampLong (sign * (digitsVal 10 0 ds : Int)) (i1 + ds.length)

def STRTOL_SUCCESS : Int := 0

def STRTOL_INVALID : Int := 1

def STRTOL_EXTRA : Int := 2

def STRTOL_RANGE : Int := 3

def STRTOL_MAX : Int := 4

def STRTOL_MIN : Int := 5

/-- Model of `string_parse_int` from pmk_string.h: copy the view into a fixed
32-byte builder (STRTOL_INVALID when `builder_append_fixed` fails, i.e. when
`32 < 0 + s.len + 1`), run strtol base 0 over the resulting C string (the
bytes up to the first embedded nul), then validate.  NOTE: the C code
compares strtol's end pointer against `string.data` — the caller's buffer —
instead of `builder.data`, the copy that was actually parsed; the two point
into different objects, so the comparison is never true and the intended
empty/invalid-input check is dead code, modelled by `if False`.  `*end` is
the byte of the copy at the consumed index (the terminator when everything
was consumed).  Returns the error code and the value stored through the out
parameter on success. -/
def string_parse_int (s : List Nat) : Int × Option Int :=
  if 32 < 0 + s.length + 1 then (STRTOL_INVALID, none)
  else
    let cstr := s.takeWhile (fun c => c != 0)
    let r := strtolM cstr
    let sl := r.1
    let consumed := r.2.1
    let rangeErr := r.2.2
    let endChar := match s[consumed]? with
      | some c => c
      | none => 0
    if False then (STRTOL_INVALID, none)
    else if endChar ≠ 0 then (STRTOL_EXTRA, none)
    else if sl = LONG_MIN ∧ rangeErr then (STRTOL_RANGE, none)
    else if sl = LONG_MAX ∧ rangeErr then (STRTOL_RANGE, none)
    else if sl > INT_MAX then (STRTOL_MAX, none)
    else if sl < INT_MIN then (STRTOL_MIN, none)
    else (STRTOL_SUCCESS, some sl)

/-- DEFAULT_ARENA_CAP from pmk_arena.h. -/
def DEFAULT_ARENA_CAP : Nat := 2 ^ 20

/-- ALIGN_UP(x, 8) from pmk_arena.h: `(x + 7) & ~7`. -/
def ALIGN_UP8 (x : Nat) : Nat := (x + 7) / 8 * 8

/-- The machine state of the arena model: a flat byte-addressed memory, the
Arena struct fields (`base` is the data pointer), the retired-buffer chain
as (base, len, cap) triples, and a fresh-allocation frontier: malloc returns
`next` and advances it, so distinct live blocks never overlap.  A size_t
header is stored as a single cell holding the whole value at the word's base
address `p - 8`; the code only ever reads and writes the word whole, and
alignment keeps payloads clear of header cells.  A null arena argument
resolves to the process-wide default arena, which is just another state of
this shape. -/
structure ArenaSt where
  mem : Nat → Nat
  base : Nat
  len : Nat
  cap : Nat
  retired : List (Nat × Nat × Nat)
  next : Nat

/-- Model of `arena_create` from pmk_arena.h, as assigned by `*arena = arena_create(cap)`:
a fresh malloc block of `cap` bytes, len 0, no chain. -/
def arena_create (σ : ArenaSt) (cap : Nat) : ArenaSt :=
  { σ with base := σ.next, len := 0, cap := cap, retired := [], next := σ.next + cap }

/-- The buffer-acquisition phase of `arena_realloc_into`: a lazily created
arena gets a fresh buffer of `max required DEFAULT_ARENA_CAP` bytes; an
arena whose current buffer lacks `required` free bytes retires it (the heap
node keeps base, len, cap and the old chain) and also gets a fresh buffer;
otherwise nothing changes. -/
def arena_grow (σ : ArenaSt) (required : Nat) : ArenaSt :=
  if σ.cap = 0 then arena_create σ (max required DEFAULT_ARENA_CAP)
  else if required > σ.cap - σ.len then
    { (arena_create σ (max required DEFAULT_ARENA_CAP)) with
        retired := (σ.base, σ.len, σ.cap) :: σ.retired }
  else σ

/-- Model of `*((size_t *) addr) = v` on the modelled memory. -/
def memWriteCell (mem : Nat → Nat) (addr v : Nat) : Nat → Nat :=
  fun a => if a = addr then v else mem a

/-- Model of `memcpy(dst, src, n)` on the modelled memory. -/
def memCopy (mem : Nat → Nat) (dst src n : Nat) : Nat → Nat :=
  fun a => if dst ≤ a ∧ a < dst + n then mem (src + (a - dst)) else mem a

/-- The allocation phase of `arena_realloc_into` once the buffer is known to
fit: write the requested size into the header word at data+len, advance len
past header plus payload with alignment padding, and when a non-null `ptr`
is being regrown (`size > 0`) copy `min(recorded old size, size)` bytes from
it into the new region.  (With a non-null `ptr` and `size == 0` nothing is
copied or freed; the PMK_DEBUG poisoning is compiled out.) -/
def arena_alloc_step (σ1 : ArenaSt) (ptr size : Nat) : ArenaSt × Nat :=
  let hdr := σ1.base + σ1.len
  let mem1 := memWriteCell σ1.mem hdr size
  let result := hdr + 8
  let len2 := ALIGN_UP8 (σ1.len + 8 + size)
  let mem2 :=
    if ptr ≠ 0 ∧ 0 < size then
      memCopy mem1 result ptr (min (mem1 (ptr - 8)) size)
    else mem1
  ({ σ1 with mem := mem2, len := len2 }, result)

/-- Model of `arena_realloc_into` from pmk_arena.h: null pointer with zero size is a
no-op returning null (address 0); otherwise acquire space for
`ALIGN_UP(size + sizeof(size_t))` bytes and allocate. -/
def arena_realloc_into (σ : ArenaSt) (ptr size : Nat) : ArenaSt × Nat :=
  if ptr = 0 ∧ size = 0 then (σ, 0)
  else arena_alloc_step (arena_grow σ (ALIGN_UP8 (size + 8))) ptr size

/-- memcmp is antisymmetric: swapping the arguments negates the result. -/
lemma memcmpM_swap (a b : List Nat) (n : Nat) : memcmpM b a n = - memcmpM a b n := by
  induction a generalizing b n with
  | nil => cases b <;> cases n <;> simp [memcmpM]
  | cons x xs ih =>
    cases b with
    | nil => cases n <;> simp [memcmpM]
    | cons y ys =>
      cases n with
      | zero => simp [memcmpM]
      | succ m =>
        by_cases hxy : x = y
        · subst hxy; simp [memcmpM, ih]
        · have hyx : ¬ y = x := fun hh => hxy hh.symm
          simp [memcmpM, hxy, hyx]

/-- memcmp over `n` bytes vanishes exactly when the length-`n` prefixes agree
(provided both sequences have at least `n` bytes). -/
lemma memcmpM_eq_zero_iff (a b : List Nat) (n : Nat) (ha : n ≤ a.length)
    (hb : n ≤ b.length) : memcmpM a b n = 0 ↔ a.take n = b.take n := by
  induction a generalizing b n with
  | nil =>
    cases n with
    | zero => simp [memcmpM]
    | succ m => simp at ha
  | cons x xs ih =>
    cases n with
    | zero => simp [memcmpM]
    | succ m =>
      cases b with
      | nil => simp at hb
      | cons y ys =>
        simp only [List.length_cons, Nat.succ_le_succ_iff] at ha hb
        by_cases hxy : x = y
        · subst hxy
          simp [memcmpM, ih ys m ha hb]
        · have hne : (x : Int) - y ≠ 0 := by
            intro hz
            apply hxy
            omega
          simp [memcmpM, hxy, hne]

/-- Unfolding equation for `string_compare` with the local lets reduced. -/
lemma string_compare_def (s1 s2 : List Nat) :
    string_compare s1 s2 =
      if memcmpM s1 s2 (if s1.length < s2.length then s1.length else s2.length) = 0 then
        if s1.length = s2.length then 0
        else if s1.length < s2.length then -1 else 1
      else memcmpM s1 s2 (if s1.length < s2.length then s1.length else s2.length) := rfl

/-- C7: for all byte sequences `a`, `b`:
`string_compare a b = 0` iff `string_equal a b`;
the sign of `string_compare a b` is the negation of the sign of
`string_compare b a`; and a strict prefix compares strictly smaller. -/
theorem string_compare_equal_sign_pfx (a b : List Nat) :
    (string_compare a b = 0 ↔ string_equal a b = true)
    ∧ Int.sign (string_compare a b) = - Int.sign (string_compare b a)
    ∧ (a.length < b.length → b.take a.length = a → string_compare a b < 0) := by
  have hminab : (if a.length < b.length then a.length else b.length)
      = min a.length b.length := by split <;> omega
  have hminba : (if b.length < a.length then b.length else a.length)
      = min a.length b.length := by split <;> omega
  refine ⟨?_, ?_, ?_⟩
  · rw [string_compare_def, hminab]
    unfold string_equal
    by_cases hlen : a.length = b.length
    · have hm : min a.length b.length = a.length := by omega
      rw [hm]
      by_cases hc : memcmpM a b a.length = 0
      · simp [hc, hlen]
      · simp [hc, hlen]
    · have hrhs : (if a.length ≠ b.length then false
          else decide (memcmpM a b a.length = 0)) = false := by simp [hlen]
      rw [hrhs]
      by_cases hc : memcmpM a b (min a.length b.length) = 0
      · rw [if_pos hc, if_neg hlen]
        by_cases hlt : a.length < b.length
        · rw [if_pos hlt]; simp
        · rw [if_neg hlt]; simp
      · rw [if_neg hc]
        simp [hc]
  · rw [string_compare_def a b, string_compare_def b a, hminab, hminba,
      memcmpM_swap a b (min a.length b.length)]
    by_cases hc : memcmpM a b (min a.length b.length) = 0
    · have hc2 : -memcmpM a b (min a.length b.length) = 0 := by omega
      rw [if_pos hc, if_pos hc2]
      rcases Nat.lt_trichotomy a.length b.length with hlt | heq | hgt
      · rw [if_neg (show ¬ a.length = b.length by omega), if_pos hlt,
          if_neg (show ¬ b.length = a.length by omega),
          if_neg (show ¬ b.length < a.length by omega)]
        decide
      · rw [if_pos heq, if_pos heq.symm]
        decide
      · rw [if_neg (show ¬ a.length = b.length by omega),
          if_neg (show ¬ a.length < b.length by omega),
          if_neg (show ¬ b.length = a.length by omega), if_pos hgt]
        decide
    · have hc2 : ¬ -memcmpM a b (min a.length b.length) = 0 := by omega
      rw [if_neg hc, if_neg hc2]
      simp
  · intro hlt htake
    rw [string_compare_def, hminab]
    have hm : min a.length b.length = a.length := by omega
    have hz : memcmpM a b a.length = 0 := by
      rw [memcmpM_eq_zero_iff a b a.length (le_refl _) (le_of_lt hlt)]
      rw [List.take_of_length_le (le_refl _), htake]
    rw [hm, if_pos hz, if_neg (show ¬ a.length = b.length by omega), if_pos hlt]
    decide

/-- Witness for C7 at the concrete inputs of the spec scenario:
a = "aa", b = "aaa". -/
theorem string_compare_equal_sign_pfx_w :
    (string_compare [97, 97] [97, 97, 97] = 0
      ↔ string_equal [97, 97] [97, 97, 97] = true)
    ∧ Int.sign (string_compare [97, 97] [97, 97, 97])
      = - Int.sign (string_compare [97, 97, 97] [97, 97])
    ∧ string_compare [97, 97] [97, 97, 97] < 0 := by
  have h := string_compare_equal_sign_pfx [97, 97] [97, 97, 97]
  exact ⟨h.1, h.2.1, h.2.2 (by decide) (by decide)⟩

/-- C10: bounded equality with a bound exceeding either length reports
not-equal, even for byte-identical strings. -/
theorem string_equaln_short_false (s1 s2 : List Nat) (n : Nat)
    (h : s1.length < n ∨ s2.length < n) : string_equaln s1 s2 n = false := by
  unfold string_equaln
  rw [if_pos h]

/-- Witness for C10: two byte-identical one-byte strings with bound 2. -/
theorem string_equaln_short_false_w : string_equaln [104] [104] 2 = false :=
  string_equaln_short_false [104] [104] 2 (by decide)

/-- memcmp over zero bytes is zero. -/
lemma memcmpM_zero (a b : List Nat) : memcmpM a b 0 = 0 := by
  cases a <;> cases b <;> rfl

/-- One-step unfolding of the scan loop. -/
lemma findLoop_succ (h n : List Nat) (i fuel : Nat) :
    findLoop h n i (fuel + 1) =
      if i + n.length ≤ h.length then
        if memcmpM (h.drop i) n n.length = 0 then i
        else findLoop h n (i + 1) fuel
      else h.length := rfl

/-- The memcmp test of the find loop coincides with `matchAt` under the loop
guard. -/
lemma findLoop_test_iff (h n : List Nat) (i : Nat) (hg : i + n.length ≤ h.length) :
    memcmpM (h.drop i) n n.length = 0 ↔ matchAt h n i := by
  unfold matchAt
  rw [memcmpM_eq_zero_iff (h.drop i) n n.length
    (by rw [List.length_drop]; omega) (le_refl _)]
  rw [List.take_of_length_le (le_refl n.length)]
  exact ⟨fun hx => ⟨hg, hx⟩, fun hx => hx.2⟩

/-- With enough fuel, the scan loop either reports the sentinel and no match
exists at or after the start index, or it returns the least matching index at
or after the start index. -/
lemma findLoop_spec (h n : List Nat) (fuel j : Nat) (hf : h.length + 1 ≤ fuel + j) :
    (findLoop h n j fuel = h.length ∧ ∀ i, j ≤ i → ¬ matchAt h n i)
    ∨ (matchAt h n (findLoop h n j fuel) ∧ j ≤ findLoop h n j fuel
        ∧ ∀ i, j ≤ i → i < findLoop h n j fuel → ¬ matchAt h n i) := by
  induction fuel generalizing j with
  | zero =>
    left
    refine ⟨rfl, ?_⟩
    intro i hji hm
    rcases hm with ⟨hfit, _⟩
    omega
  | succ fuel ih =>
    by_cases hguard : j + n.length ≤ h.length
    · by_cases hmem : memcmpM (h.drop j) n n.length = 0
      · right
        have heval : findLoop h n j (fuel + 1) = j := by
          rw [findLoop_succ, if_pos hguard, if_pos hmem]
        rw [heval]
        refine ⟨(findLoop_test_iff h n j hguard).mp hmem, le_refl _, ?_⟩
        intro i h1 h2 _
        omega
      · have heval : findLoop h n j (fuel + 1) = findLoop h n (j + 1) fuel := by
          rw [findLoop_succ, if_pos hguard, if_neg hmem]
        have hnoj : ¬ matchAt h n j := fun hm =>
          hmem ((findLoop_test_iff h n j hguard).mpr hm)
        rcases ih (j + 1) (by omega) with ⟨he, hno⟩ | ⟨hm, hle, hleast⟩
        · left
          rw [heval]
          refine ⟨he, ?_⟩
          intro i hji
          by_cases hij : i = j
          · subst hij; exact hnoj
          · exact hno i (by omega)
        · right
          rw [heval]
          refine ⟨hm, by omega, ?_⟩
          intro i h1 h2
          by_cases hij : i = j
          · subst hij; exact hnoj
          · exact hleast i (by omega) h2
    · left
      have heval : findLoop h n j (fuel + 1) = h.length := by
        rw [findLoop_succ, if_neg hguard]
      rw [heval]
      refine ⟨rfl, ?_⟩
      intro i hji hm
      rcases hm with ⟨hfit, _⟩
      omega

/-- An empty needle matches at position 0 in any haystack. -/
lemma string_find_nil_eq (h : List Nat) : string_find h [] = 0 := by
  unfold string_find
  rw [if_neg (by simp)]
  show findLoop h [] 0 (h.length + 1) = 0
  rw [findLoop_succ, if_pos (by simp), if_pos (by simpa using memcmpM_zero (h.drop 0) [])]

/-- C6 counterexample: the claimed equivalence, namely that the function
returns `h.len` if and only if no match exists, is false at the concrete
input h = "" and n = "": the function returns 0 = h.len, yet a match does
exist (the empty needle matches at position 0). -/
theorem string_find_sentinel_cx :
    ¬ (string_find ([] : List Nat) [] = ([] : List Nat).length
        ↔ ¬ ∃ i, matchAt ([] : List Nat) [] i) := by
  intro hIff
  exact (hIff.mp (by decide)) ⟨0, by decide⟩

/-- C6 amended: `string_find h n` returns the smallest matching index when a
match exists and `h.length` when none exists; an empty needle matches at 0;
and for nonempty haystack or nonempty needle (the degenerate corner h = n =
empty being the one exception) the sentinel is returned iff no match exists. -/
theorem string_find_least_amended (h n : List Nat) :
    ((¬ ∃ i, matchAt h n i) → string_find h n = h.length)
    ∧ (∀ i, matchAt h n i → matchAt h n (string_find h n) ∧ string_find h n ≤ i)
    ∧ string_find h [] = 0
    ∧ ((0 < h.length ∨ 0 < n.length) →
        (string_find h n = h.length ↔ ¬ ∃ i, matchAt h n i)) := by
  by_cases hbig : n.length > h.length
  · have heval : string_find h n = h.length := by
      unfold string_find; rw [if_pos hbig]
    have hnone : ∀ i, ¬ matchAt h n i := by
      intro i hm
      rcases hm with ⟨hfit, _⟩
      omega
    refine ⟨fun _ => heval, ?_, string_find_nil_eq h, ?_⟩
    · intro i hmi
      exact absurd hmi (hnone i)
    · intro _
      refine ⟨fun _ => ?_, fun _ => heval⟩
      rintro ⟨i, hmi⟩
      exact hnone i hmi
  · have heval : string_find h n = findLoop h n 0 (h.length + 1) := by
      unfold string_find; rw [if_neg hbig]
    rcases findLoop_spec h n (h.length + 1) 0 (by omega) with
      ⟨he, hno⟩ | ⟨hm, _, hleast⟩
    · refine ⟨fun _ => heval ▸ he, ?_, string_find_nil_eq h, ?_⟩
      · intro i hmi
        exact absurd hmi (hno i (Nat.zero_le i))
      · intro _
        refine ⟨fun _ => ?_, fun _ => heval ▸ he⟩
        rintro ⟨i, hmi⟩
        exact hno i (Nat.zero_le i) hmi
    · have hmfind : matchAt h n (string_find h n) := heval ▸ hm
      refine ⟨?_, ?_, string_find_nil_eq h, ?_⟩
      · intro hne
        exact absurd ⟨string_find h n, hmfind⟩ hne
      · intro i hmi
        refine ⟨hmfind, ?_⟩
        by_contra hgt
        exact hleast i (Nat.zero_le i) (by rw [← heval]; omega) hmi
      · intro hp
        refine ⟨fun heq => ?_, fun hne => absurd ⟨string_find h n, hmfind⟩ hne⟩
        exfalso
        have hfit := hmfind.1
        rw [heq] at hfit
        have hn0 : n.length = 0 := by omega
        have hnil : n = [] := List.length_eq_zero.mp hn0
        have h0 : string_find h n = 0 := by rw [hnil]; exact string_find_nil_eq h
        rw [heq] at h0
        rcases hp with hp | hp <;> omega

/-- Witness for C6 amended, at the concrete inputs h = "ab", n = "b" (least
match) and h = "a", n = "b" (sentinel equivalence). -/
theorem string_find_least_amended_w :
    (matchAt [97, 98] [98] (string_find [97, 98] [98])
      ∧ string_find [97, 98] [98] ≤ 1)
    ∧ (string_find [97] [98] = [97].length ↔ ¬ ∃ i, matchAt [97] [98] i) :=
  ⟨(string_find_least_amended [97, 98] [98]).2.1 1 (by decide),
    (string_find_least_amended [97] [98]).2.2.2 (Or.inl (by decide))⟩

lemma listWrite_length (buf src : List Nat) (pos : Nat)
    (h : pos + src.length ≤ buf.length) :
    (listWrite buf pos src).length = buf.length := by
  simp [listWrite]
  omega

lemma listWrite_getElem_mid (buf src : List Nat) (pos i : Nat)
    (hpos : pos ≤ buf.length) (hi : i < src.length) :
    (listWrite buf pos src)[pos + i]? = src[i]? := by
  unfold listWrite
  rw [List.getElem?_append]
  have hlen : (buf.take pos).length = pos := by
    simp [List.length_take]
    omega
  rw [hlen, if_neg (show ¬ pos + i < pos by omega),
    show pos + i - pos = i by omega, List.getElem?_append, if_pos hi]

lemma listWrite_getElem_left (buf src : List Nat) (pos i : Nat)
    (hi : i < pos) (hpos : pos ≤ buf.length) :
    (listWrite buf pos src)[i]? = buf[i]? := by
  unfold listWrite
  rw [List.getElem?_append]
  have hlen : (buf.take pos).length = pos := by
    simp [List.length_take]
    omega
  rw [hlen, if_pos hi, List.getElem?_take_of_lt hi]

lemma listWrite_take_left (buf src : List Nat) (pos : Nat)
    (hpos : pos ≤ buf.length) :
    (listWrite buf pos src).take pos = buf.take pos := by
  unfold listWrite
  have hlen : (buf.take pos).length = pos := by
    simp [List.length_take]
    omega
  rw [List.take_left' hlen]

/-- Writing a slice of a buffer back to the place it came from changes
nothing. -/
lemma listWrite_self (buf : List Nat) (pos m : Nat) (h : pos + m ≤ buf.length) :
    listWrite buf pos ((buf.drop pos).take m) = buf := by
  unfold listWrite
  have hlen : ((buf.drop pos).take m).length = m := by
    simp [List.length_take, List.length_drop]
    omega
  rw [hlen, (List.drop_drop m pos buf).symm,
    List.take_append_drop m (buf.drop pos), List.take_append_drop pos buf]

lemma listWrite_nil (buf : List Nat) (pos : Nat) :
    listWrite buf pos [] = buf := by
  simp [listWrite]

/-- C9: when the fixed buffer cannot fit the appended bytes plus terminator,
`builder_append_fixed` returns a negative error code and leaves the builder
(data, len, cap, hence all stored bytes) exactly unchanged. -/
theorem builder_append_fixed_atomic (b : SB) (s : List Nat)
    (h : b.cap < b.len + s.length + 1) :
    (builder_append_fixed b s).1 < 0 ∧ (builder_append_fixed b s).2 = b := by
  unfold builder_append_fixed
  rw [if_pos h]
  exact ⟨by norm_num [ENOBUFS], rfl⟩

/-- Witness for C9: a capacity-2 fixed builder holding one byte rejects a
one-byte append (2 < 1 + 1 + 1) and is returned unchanged. -/
theorem builder_append_fixed_atomic_w :
    (builder_append_fixed ⟨[104, 0], 1, 2⟩ [105]).1 < 0
    ∧ (builder_append_fixed ⟨[104, 0], 1, 2⟩ [105]).2 = ⟨[104, 0], 1, 2⟩ :=
  builder_append_fixed_atomic ⟨[104, 0], 1, 2⟩ [105] (by decide)

/-- C2 counterexample, at the concrete input named by the claim: a fixed
builder of capacity 4 holding "ab" receives an append of "cd" (required size
2 + 2 + 1 = 5 exceeds the 3 usable bytes).  No transition to owned storage
happens: the call fails with a negative code, the capacity is still 4, and
the contents are still "ab" — not the "abcd" the claimed Fixed-to-Owned
transition would produce. -/
theorem builder_append_fixed_cx :
    (builder_append_fixed ⟨[97, 98, 0, 65], 2, 4⟩ [99, 100]).1 < 0
    ∧ (builder_append_fixed ⟨[97, 98, 0, 65], 2, 4⟩ [99, 100]).2.cap = 4
    ∧ contents (builder_append_fixed ⟨[97, 98, 0, 65], 2, 4⟩ [99, 100]).2 = [97, 98]
    ∧ contents (builder_append_fixed ⟨[97, 98, 0, 65], 2, 4⟩ [99, 100]).2
        ≠ [97, 98, 99, 100] := by
  decide

/-- C2 amended: an append to a fixed builder whose required size exceeds the
array capacity never grows the builder past the array size and never
migrates the storage: it returns a negative error code and leaves the data
block, the length, and the capacity exactly as they were. -/
theorem builder_append_fixed_nogrow (b : SB) (s : List Nat)
    (h : b.cap < b.len + s.length + 1) :
    (builder_append_fixed b s).1 < 0
    ∧ (builder_append_fixed b s).2.cap = b.cap
    ∧ (builder_append_fixed b s).2.data = b.data
    ∧ (builder_append_fixed b s).2.len = b.len := by
  unfold builder_append_fixed
  rw [if_pos h]
  exact ⟨by norm_num [ENOBUFS], rfl, rfl, rfl⟩

/-- Witness for C2 amended at the capacity-4 scenario of the claim. -/
theorem builder_append_fixed_nogrow_w :
    (builder_append_fixed ⟨[103, 104, 0, 66], 2, 4⟩ [105, 106]).1 < 0
    ∧ (builder_append_fixed ⟨[103, 104, 0, 66], 2, 4⟩ [105, 106]).2.cap = 4
    ∧ (builder_append_fixed ⟨[103, 104, 0, 66], 2, 4⟩ [105, 106]).2.data
        = [103, 104, 0, 66]
    ∧ (builder_append_fixed ⟨[103, 104, 0, 66], 2, 4⟩ [105, 106]).2.len = 2 :=
  builder_append_fixed_nogrow ⟨[103, 104, 0, 66], 2, 4⟩ [105, 106] (by decide)

/-- C3: each fixed-capacity operation whose result does not fit reports the
insufficient space through its return value — a negative errno for append,
-1 for replace and splice (all three leaving the builder untouched, so
nothing is truncated at all), and for print the positive count of truncated
bytes (so the truncation that does occur is reported, never silent). -/
theorem fixed_ops_report_no_silent_trunc :
    (∀ (b : SB) (s : List Nat), b.cap < b.len + s.length + 1 →
      (builder_append_fixed b s).1 ≠ 0 ∧ (builder_append_fixed b s).1 < 0
        ∧ (builder_append_fixed b s).2 = b)
    ∧ (∀ (b : SB) (out : List Nat), sbWF b → b.cap < b.len + out.length + 1 →
      (builder_print_fixed b out).1 ≠ 0 ∧ (builder_print_fixed b out).1 > 0)
    ∧ (∀ (b : SB) (x y : List Nat), x.length ≠ 0 →
        (replaceNewLen b x y + 1) % 2 ^ 64 > b.cap →
      (builder_replace_fixed b x y).1 ≠ 0 ∧ (builder_replace_fixed b x y).1 = -1
        ∧ (builder_replace_fixed b x y).2 = b)
    ∧ (∀ (b : SB) (start stop : Int) (s : List Nat),
        0 ≤ splice_norm start b.len →
        splice_norm start b.len ≤ splice_norm stop b.len →
        splice_norm stop b.len ≤ (b.len : Int) →
        b.len - ((splice_norm stop b.len).toNat - (splice_norm start b.len).toNat)
          + s.length + 1 > b.cap →
      (builder_splice_fixed b start stop s).1 ≠ 0
        ∧ (builder_splice_fixed b start stop s).1 = -1
        ∧ (builder_splice_fixed b start stop s).2 = b) := by
  refine ⟨?_, ?_, ?_, ?_⟩
  · intro b s h
    unfold builder_append_fixed
    rw [if_pos h]
    exact ⟨by norm_num [ENOBUFS], by norm_num [ENOBUFS], rfl⟩
  · intro b out hwf h
    unfold builder_print_fixed
    have hpos : ((out.length + 1 : Nat) : Int) - ((b.cap - b.len : Nat) : Int) > 0 := by
      rcases hwf with ⟨_, hlc⟩
      omega
    rw [if_pos hpos]
    exact ⟨by omega, hpos⟩
  · intro b x y hx hfit
    unfold builder_replace_fixed
    rw [if_neg hx, if_pos hfit]
    exact ⟨by norm_num, rfl, rfl⟩
  · intro b start stop s h1 h2 h3 h4
    unfold builder_splice_fixed
    rw [if_pos ⟨h1, le_trans h1 h2, h2, h3⟩, if_pos h4]
    exact ⟨by norm_num, rfl, rfl⟩

/-- Witness for C3, one concrete non-fitting input per operation:
append one byte to a full capacity-2 builder; print three formatted bytes
into an empty capacity-3 builder; replace one byte by three in a full
capacity-4 builder; splice four bytes into a full capacity-4 builder. -/
theorem fixed_ops_report_no_silent_trunc_w :
    ((builder_append_fixed ⟨[104, 0], 1, 2⟩ [106]).1 < 0
      ∧ (builder_append_fixed ⟨[104, 0], 1, 2⟩ [106]).2 = ⟨[104, 0], 1, 2⟩)
    ∧ (builder_print_fixed ⟨[0, 0, 0], 0, 3⟩ [49, 50, 51]).1 > 0
    ∧ ((builder_replace_fixed ⟨[97, 98, 99, 0], 3, 4⟩ [98] [100, 101, 102]).1 = -1
      ∧ (builder_replace_fixed ⟨[97, 98, 99, 0], 3, 4⟩ [98] [100, 101, 102]).2
          = ⟨[97, 98, 99, 0], 3, 4⟩)
    ∧ ((builder_splice_fixed ⟨[97, 98, 99, 0], 3, 4⟩ 1 1 [1, 2, 3, 4]).1 = -1
      ∧ (builder_splice_fixed ⟨[97, 98, 99, 0], 3, 4⟩ 1 1 [1, 2, 3, 4]).2
          = ⟨[97, 98, 99, 0], 3, 4⟩) := by
  have h := fixed_ops_report_no_silent_trunc
  refine ⟨?_, ?_, ?_, ?_⟩
  · have ha := h.1 ⟨[104, 0], 1, 2⟩ [106] (by decide)
    exact ⟨ha.2.1, ha.2.2⟩
  · exact (h.2.1 ⟨[0, 0, 0], 0, 3⟩ [49, 50, 51] (by decide) (by decide)).2
  · have hr := h.2.2.1 ⟨[97, 98, 99, 0], 3, 4⟩ [98] [100, 101, 102]
      (by decide) (by decide)
    exact ⟨hr.2.1, hr.2.2⟩
  · have hs := h.2.2.2 ⟨[97, 98, 99, 0], 3, 4⟩ 1 1 [1, 2, 3, 4]
      (by decide) (by decide) (by decide) (by decide)
    exact ⟨hs.2.1, hs.2.2⟩

/-- Facts about a strict growth step: well-formedness is preserved, `len` is
unchanged, the new capacity is exact, and every prefix of the old block is
preserved (pointwise reads included). -/
lemma growTo_facts (b : SB) (c : Nat) (hwf : sbWF b) (hc : b.cap < c) :
    sbWF (growTo b c) ∧ (growTo b c).len = b.len ∧ (growTo b c).cap = c
    ∧ (∀ j, j ≤ b.data.length → (growTo b c).data.take j = b.data.take j)
    ∧ (∀ j, j < b.data.length → (growTo b c).data[j]? = b.data[j]?) := by
  rcases hwf with ⟨hdl, hlc⟩
  have htake : b.data.take c = b.data := List.take_of_length_le (by omega)
  have hlen2 : (growTo b c).data.length = c := by
    simp [growTo, htake, List.length_replicate]
    omega
  refine ⟨⟨hlen2, by simp [growTo]; omega⟩, rfl, rfl, ?_, ?_⟩
  · intro j hj
    show (b.data.take c ++ List.replicate (c - b.data.length) 0).take j = b.data.take j
    rw [htake, List.take_append_of_le_length hj]
  · intro j hj
    show (b.data.take c ++ List.replicate (c - b.data.length) 0)[j]? = b.data[j]?
    rw [htake, List.getElem?_append, if_pos hj]

/-- On a strictly growing request, reserve is exactly the reallocation. -/
lemma reserve_grow (b : SB) (c : Nat) (hc : b.cap < c) :
    builder_reserve_context b c = growTo b c := by
  unfold builder_reserve_context
  rw [if_neg (by omega)]

/-- The builder produced by writing a terminator byte at `nl` into a block of
`c` bytes with `nl + 1 ≤ c` is well formed and null terminated. -/
lemma nullTerm_mk (d : List Nat) (c nl : Nat) (hd : d.length = c)
    (hfit : nl + 1 ≤ c) :
    sbWF ⟨listWrite d nl [0], nl, c⟩ ∧ nullTerm ⟨listWrite d nl [0], nl, c⟩ := by
  have hw : (listWrite d nl [0]).length = d.length :=
    listWrite_length d [0] nl (by simp; omega)
  refine ⟨⟨?_, ?_⟩, ?_, ?_⟩
  · show (listWrite d nl [0]).length = c
    rw [hw, hd]
  · show nl ≤ c
    omega
  · show (listWrite d nl [0])[nl]? = some 0
    have hmid := listWrite_getElem_mid d [0] nl 0 (by omega) (by simp)
    rw [Nat.add_zero] at hmid
    rw [hmid]
    rfl
  · show nl + 1 ≤ c
    omega

/-- The builder produced by appending `s` plus terminator at offset `pos`
into a block of `c` bytes, when it fits, is well formed and null
terminated. -/
lemma nullTerm_append_write (d : List Nat) (c pos : Nat) (s : List Nat)
    (hd : d.length = c) (hfit : pos + s.length + 1 ≤ c) :
    sbWF ⟨listWrite d pos (s ++ [0]), pos + s.length, c⟩
    ∧ nullTerm ⟨listWrite d pos (s ++ [0]), pos + s.length, c⟩ := by
  have hsl : (s ++ [0]).length = s.length + 1 := by simp
  have hw : (listWrite d pos (s ++ [0])).length = d.length :=
    listWrite_length d (s ++ [0]) pos (by rw [hsl]; omega)
  refine ⟨⟨?_, ?_⟩, ?_, ?_⟩
  · show (listWrite d pos (s ++ [0])).length = c
    rw [hw, hd]
  · show pos + s.length ≤ c
    omega
  · show (listWrite d pos (s ++ [0]))[pos + s.length]? = some 0
    have hmid := listWrite_getElem_mid d (s ++ [0]) pos s.length
      (by omega) (by rw [hsl]; omega)
    rw [hmid, List.getElem?_append, if_neg (by omega), Nat.sub_self]
    rfl
  · show pos + s.length + 1 ≤ c
    omega

lemma appendGrow_facts (b : SB) (nl : Nat) (hwf : sbWF b) :
    sbWF (appendGrow b nl) ∧ (appendGrow b nl).len = b.len
    ∧ nl + 1 ≤ (appendGrow b nl).cap ∧ b.cap ≤ (appendGrow b nl).cap
    ∧ (∀ j, j ≤ b.data.length → (appendGrow b nl).data.take j = b.data.take j)
    ∧ (∀ j, j < b.data.length → (appendGrow b nl).data[j]? = b.data[j]?) := by
  unfold appendGrow
  by_cases hg : b.cap < nl + 1
  · rw [if_pos hg]
    have hf := growTo_facts b (max (b.cap * 2) (nl + 1)) hwf (by omega)
    exact ⟨hf.1, hf.2.1, by rw [hf.2.2.1]; omega, by rw [hf.2.2.1]; omega,
      hf.2.2.2.1, hf.2.2.2.2⟩
  · rw [if_neg hg]
    exact ⟨hwf, rfl, by omega, by omega, fun j _ => rfl, fun j _ => rfl⟩

lemma spliceGrow_facts (b : SB) (nl : Nat) (hwf : sbWF b) :
    sbWF (spliceGrow b nl) ∧ (spliceGrow b nl).len = b.len
    ∧ nl + 1 ≤ (spliceGrow b nl).cap ∧ b.cap ≤ (spliceGrow b nl).cap
    ∧ (∀ j, j ≤ b.data.length → (spliceGrow b nl).data.take j = b.data.take j)
    ∧ (∀ j, j < b.data.length → (spliceGrow b nl).data[j]? = b.data[j]?) := by
  unfold spliceGrow
  by_cases hg : nl + 1 > b.cap
  · rw [if_pos hg, reserve_grow b _ (by omega)]
    have hf := growTo_facts b (max (b.cap * 2) (nl + 1)) hwf (by omega)
    exact ⟨hf.1, hf.2.1, by rw [hf.2.2.1]; omega, by rw [hf.2.2.1]; omega,
      hf.2.2.2.1, hf.2.2.2.2⟩
  · rw [if_neg hg]
    exact ⟨hwf, rfl, by omega, by omega, fun j _ => rfl, fun j _ => rfl⟩

lemma replaceGrow_facts (b : SB) (nl : Nat) (hwf : sbWF b)
    (hsmall : nl + 1 < 2 ^ 64) :
    sbWF (replaceGrow b nl) ∧ (replaceGrow b nl).len = b.len
    ∧ nl + 1 ≤ (replaceGrow b nl).cap ∧ b.cap ≤ (replaceGrow b nl).cap
    ∧ (∀ j, j ≤ b.data.length → (replaceGrow b nl).data.take j = b.data.take j)
    ∧ (∀ j, j < b.data.length → (replaceGrow b nl).data[j]? = b.data[j]?) := by
  unfold replaceGrow
  rw [Nat.mod_eq_of_lt hsmall]
  by_cases hg : nl + 1 > b.cap
  · rw [if_pos hg, reserve_grow b _ (by omega)]
    have hf := growTo_facts b (max (b.cap * 2) (nl + 1)) hwf (by omega)
    exact ⟨hf.1, hf.2.1, by rw [hf.2.2.1]; omega, by rw [hf.2.2.1]; omega,
      hf.2.2.2.1, hf.2.2.2.2⟩
  · rw [if_neg hg]
    exact ⟨hwf, rfl, by omega, by omega, fun j _ => rfl, fun j _ => rfl⟩

lemma replaceGrow_facts_weak (b : SB) (nl : Nat) (hwf : sbWF b) :
    sbWF (replaceGrow b nl) ∧ (replaceGrow b nl).len = b.len
    ∧ b.cap ≤ (replaceGrow b nl).cap
    ∧ (∀ j, j ≤ b.data.length → (replaceGrow b nl).data.take j = b.data.take j)
    ∧ (∀ j, j < b.data.length → (replaceGrow b nl).data[j]? = b.data[j]?) := by
  unfold replaceGrow
  by_cases hg : (nl + 1) % 2 ^ 64 > b.cap
  · rw [if_pos hg, reserve_grow b _ (by omega)]
    have hf := growTo_facts b (max (b.cap * 2) ((nl + 1) % 2 ^ 64)) hwf (by omega)
    exact ⟨hf.1, hf.2.1, by rw [hf.2.2.1]; omega, hf.2.2.2.1, hf.2.2.2.2⟩
  · rw [if_neg hg]
    exact ⟨hwf, rfl, by omega, fun j _ => rfl, fun j _ => rfl⟩

/-- Evaluation of `builder_splice_context` on assert-valid indices. -/
lemma splice_int_eval (b : SB) (start stop : Int) (s : List Nat)
    (h0 : 0 ≤ start) (hse : start ≤ stop) (hen : stop ≤ (b.len : Int)) :
    builder_splice_context b start stop s =
      { data := listWrite
          (listWrite
            (listWrite (spliceGrow b (b.len - (stop.toNat - start.toNat) + s.length)).data
              (start.toNat + s.length)
              (((spliceGrow b (b.len - (stop.toNat - start.toNat) + s.length)).data.drop
                  stop.toNat).take (b.len - stop.toNat)))
            start.toNat s)
          (b.len - (stop.toNat - start.toNat) + s.length) [0],
        len := b.len - (stop.toNat - start.toNat) + s.length,
        cap := (spliceGrow b (b.len - (stop.toNat - start.toNat) + s.length)).cap } := by
  simp only [builder_splice_context, splice_norm]
  rw [if_neg (show ¬ start < 0 by omega), if_neg (show ¬ stop < 0 by omega),
    if_pos (⟨h0, by omega, hse, hen⟩ :
      0 ≤ start ∧ 0 ≤ stop ∧ start ≤ stop ∧ stop ≤ (b.len : Int))]

/-- C8: `builder_splice_context b k k ""` keeps contents and length unchanged
(for any 0 <= k <= len); `builder_splice_context b 0 len y` makes the
contents exactly `y`; negative arguments are normalized by adding `len`
(splicing with already-normalized indices gives the same result), and the
normalization function is literally the one of `string_substr`. -/
theorem builder_splice_noop_full_norm (b : SB) (k : Nat) (y : List Nat)
    (hwf : sbWF b) (hk : k ≤ b.len) :
    ((builder_splice_context b (k : Int) (k : Int) []).len = b.len
      ∧ contents (builder_splice_context b (k : Int) (k : Int) []) = contents b)
    ∧ ((builder_splice_context b 0 (b.len : Int) y).len = y.length
      ∧ contents (builder_splice_context b 0 (b.len : Int) y) = y)
    ∧ (∀ (start stop : Int), 0 ≤ splice_norm start b.len →
        0 ≤ splice_norm stop b.len →
        builder_splice_context b start stop y
          = builder_splice_context b (splice_norm start b.len)
              (splice_norm stop b.len) y)
    ∧ splice_norm = substr_norm := by
  have hdl : b.data.length = b.cap := hwf.1
  have hlc : b.len ≤ b.cap := hwf.2
  refine ⟨?_, ?_, ?_, rfl⟩
  · have e := splice_int_eval b (k : Int) (k : Int) [] (by omega) (by omega) (by omega)
    simp only [Int.toNat_natCast, Nat.sub_self, Nat.sub_zero, List.length_nil,
      Nat.add_zero] at e
    obtain ⟨hgwf, hglen, hgcap, hgcaple, hgtake, hgget⟩ := spliceGrow_facts b b.len hwf
    have hgdl : (spliceGrow b b.len).data.length = (spliceGrow b b.len).cap := hgwf.1
    have hself : listWrite (spliceGrow b b.len).data k
        (((spliceGrow b b.len).data.drop k).take (b.len - k))
        = (spliceGrow b b.len).data :=
      listWrite_self _ k (b.len - k) (by rw [hgdl]; omega)
    rw [e, hself, listWrite_nil]
    refine ⟨rfl, ?_⟩
    show (listWrite (spliceGrow b b.len).data b.len [0]).take b.len = contents b
    rw [listWrite_take_left _ [0] b.len (by rw [hgdl]; omega),
      hgtake b.len (by omega)]
    rfl
  · have e := splice_int_eval b 0 (b.len : Int) y (le_refl 0) (by omega) (by omega)
    simp only [Int.toNat_natCast, Int.toNat_zero, Nat.sub_zero, Nat.sub_self,
      Nat.zero_add, Nat.add_zero, List.take_zero, listWrite_nil] at e
    obtain ⟨hgwf, hglen, hgcap, hgcaple, hgtake, hgget⟩ := spliceGrow_facts b y.length hwf
    have hgdl : (spliceGrow b y.length).data.length = (spliceGrow b y.length).cap :=
      hgwf.1
    rw [e]
    refine ⟨rfl, ?_⟩
    have hd2len : (listWrite (spliceGrow b y.length).data 0 y).length
        = (spliceGrow b y.length).data.length :=
      listWrite_length _ y 0 (by rw [hgdl]; omega)
    show (listWrite (listWrite (spliceGrow b y.length).data 0 y) y.length [0]).take
        y.length = y
    rw [listWrite_take_left _ [0] y.length (by rw [hd2len, hgdl]; omega)]
    show (listWrite (spliceGrow b y.length).data 0 y).take y.length = y
    unfold listWrite
    simp only [List.take_zero, List.nil_append, Nat.zero_add]
    exact List.take_left y _
  · intro start stop h1 h2
    simp only [builder_splice_context]
    set v1 := splice_norm start b.len with hv1
    set v2 := splice_norm stop b.len with hv2
    have e1 : splice_norm v1 b.len = v1 := by
      unfold splice_norm
      rw [if_neg (by omega)]
    have e2 : splice_norm v2 b.len = v2 := by
      unfold splice_norm
      rw [if_neg (by omega)]
    rw [e1, e2]

/-- Witness for C8 at a concrete builder holding "abc" in a 4-byte block,
with k = 1 and y = "xy". -/
theorem builder_splice_noop_full_norm_w :
    ((builder_splice_context ⟨[97, 98, 99, 0], 3, 4⟩ (1 : Int) (1 : Int) []).len = 3
      ∧ contents (builder_splice_context ⟨[97, 98, 99, 0], 3, 4⟩ (1 : Int) (1 : Int) [])
        = contents ⟨[97, 98, 99, 0], 3, 4⟩)
    ∧ ((builder_splice_context ⟨[97, 98, 99, 0], 3, 4⟩ 0 (3 : Int) [120, 121]).len = 2
      ∧ contents (builder_splice_context ⟨[97, 98, 99, 0], 3, 4⟩ 0 (3 : Int) [120, 121])
        = [120, 121]) := by
  have h := builder_splice_noop_full_norm ⟨[97, 98, 99, 0], 3, 4⟩ 1 [120, 121]
    (by decide) (by decide)
  exact ⟨⟨h.1.1, h.1.2⟩, ⟨h.2.1.1, h.2.1.2⟩⟩

/-- C1 counterexample: successful mutating operations that violate the
claimed invariant.  builder_getline_fixed on a capacity-8 fixed buffer
reading the line "hi\n" succeeds (returns 0) with len = 2 but leaves the
stripped newline byte 10 at data[len], not a terminator.
builder_read_file_fixed on a capacity-4 buffer holding 0x41 bytes reading a
2-byte file succeeds with len = 2 and the stale byte 0x41 at data[len]; and
reading a 4-byte file succeeds with len = 4 = cap, violating
len <= cap - 1. -/
theorem getline_read_file_nullterm_cx :
    ((builder_getline_fixed ⟨[0, 0, 0, 0, 0, 0, 0, 0], 0, 8⟩ [104, 105, 10]).1 = 0
      ∧ ¬ nullTerm (builder_getline_fixed ⟨[0, 0, 0, 0, 0, 0, 0, 0], 0, 8⟩
          [104, 105, 10]).2.1
      ∧ (builder_getline_fixed ⟨[0, 0, 0, 0, 0, 0, 0, 0], 0, 8⟩
          [104, 105, 10]).2.1.len = 2
      ∧ (builder_getline_fixed ⟨[0, 0, 0, 0, 0, 0, 0, 0], 0, 8⟩
          [104, 105, 10]).2.1.data[2]? = some 10)
    ∧ ((builder_read_file_fixed ⟨[65, 65, 65, 65], 0, 4⟩ [104, 105]).1 = 0
      ∧ ¬ nullTerm (builder_read_file_fixed ⟨[65, 65, 65, 65], 0, 4⟩ [104, 105]).2)
    ∧ ((builder_read_file_fixed ⟨[65, 65, 65, 65], 0, 4⟩ [104, 105, 106, 107]).1 = 0
      ∧ (builder_read_file_fixed ⟨[65, 65, 65, 65], 0, 4⟩ [104, 105, 106, 107]).2.len
          = (builder_read_file_fixed ⟨[65, 65, 65, 65], 0, 4⟩
              [104, 105, 106, 107]).2.cap) := by
  decide

/-- When `string_find` does not return the sentinel, its result is a real
match position. -/
lemma string_find_found (h n : List Nat) (hne : string_find h n ≠ h.length) :
    matchAt h n (string_find h n) := by
  by_cases hbig : n.length > h.length
  · exfalso
    apply hne
    unfold string_find
    rw [if_pos hbig]
  · have heval : string_find h n = findLoop h n 0 (h.length + 1) := by
      unfold string_find
      rw [if_neg hbig]
    rcases findLoop_spec h n (h.length + 1) 0 (by omega) with ⟨he, _⟩ | ⟨hm, _, _⟩
    · exfalso
      apply hne
      rw [heval, he]
    · rw [heval]
      exact hm

/-- Without wraparound (x no longer than the contents, sane total sizes) the
size_t expression of the replace functions is the plain value. -/
lemma replaceNewLen_eval (b : SB) (x y : List Nat) (hxle : x.length ≤ b.len)
    (hbound : b.len + y.length < 2 ^ 64) :
    replaceNewLen b x y = b.len - x.length + y.length := by
  unfold replaceNewLen szsub
  rw [Nat.mod_eq_of_lt (show x.length < 2 ^ 64 by omega),
    show b.len + (2 ^ 64 - x.length) = 2 ^ 64 + (b.len - x.length) by omega,
    Nat.add_mod_left, Nat.mod_eq_of_lt (by omega), Nat.mod_eq_of_lt (by omega)]

/-- The memmove-memcpy-terminator write sequence shared by the replace and
splice bodies produces a well-formed, null-terminated builder whenever each
write stays inside the block. -/
lemma three_writes_ok (dd : List Nat) (c pos1 off1 m1 pos2 nl : Nat) (s : List Nat)
    (hdl : dd.length = c) (h1 : pos1 + m1 ≤ c) (h2 : pos2 + s.length ≤ c)
    (hnl : nl + 1 ≤ c) :
    sbWF ⟨listWrite (listWrite (listWrite dd pos1 ((dd.drop off1).take m1)) pos2 s)
        nl [0], nl, c⟩
    ∧ nullTerm ⟨listWrite (listWrite (listWrite dd pos1 ((dd.drop off1).take m1))
        pos2 s) nl [0], nl, c⟩ := by
  have hrlen : ((dd.drop off1).take m1).length ≤ m1 := by
    simp [List.length_take, List.length_drop]
  have hlen1 : (listWrite dd pos1 ((dd.drop off1).take m1)).length = dd.length :=
    listWrite_length _ _ _ (by omega)
  have hlen2 : (listWrite (listWrite dd pos1 ((dd.drop off1).take m1)) pos2 s).length
      = (listWrite dd pos1 ((dd.drop off1).take m1)).length :=
    listWrite_length _ _ _ (by rw [hlen1]; omega)
  exact nullTerm_mk _ c nl (by rw [hlen2, hlen1, hdl]) hnl

/-- Evaluation of `builder_splice_context` under assert-validity hypotheses
phrased on the normalized indices. -/
lemma splice_norm_eval (b : SB) (start stop : Int) (s : List Nat)
    (h0 : 0 ≤ splice_norm start b.len)
    (hse : splice_norm start b.len ≤ splice_norm stop b.len)
    (hen : splice_norm stop b.len ≤ (b.len : Int)) :
    builder_splice_context b start stop s =
      ⟨listWrite (listWrite (listWrite
          (spliceGrow b (b.len - ((splice_norm stop b.len).toNat
              - (splice_norm start b.len).toNat) + s.length)).data
          ((splice_norm start b.len).toNat + s.length)
          (((spliceGrow b (b.len - ((splice_norm stop b.len).toNat
              - (splice_norm start b.len).toNat) + s.length)).data.drop
              (splice_norm stop b.len).toNat).take
            (b.len - (splice_norm stop b.len).toNat)))
          (splice_norm start b.len).toNat s)
        (b.len - ((splice_norm stop b.len).toNat - (splice_norm start b.len).toNat)
          + s.length) [0],
       b.len - ((splice_norm stop b.len).toNat - (splice_norm start b.len).toNat)
         + s.length,
       (spliceGrow b (b.len - ((splice_norm stop b.len).toNat
           - (splice_norm start b.len).toNat) + s.length)).cap⟩ := by
  simp only [builder_splice_context]
  rw [if_pos ⟨h0, le_trans h0 hse, hse, hen⟩]

/-- C1 amended: after any successful append, print (formatting abstracted),
replace, or splice — context or fixed variant — the builder is well formed,
the byte at index `len` is the nul terminator, and `len + 1 <= cap`.  The
getline and read_file operations are excluded: they violate the invariant
(see the counterexample).  The replace conjuncts assume the preexisting
invariant (used on their not-found no-op paths) and total sizes below
2 ^ 64; the splice conjuncts assume the asserted index validity. -/
theorem mutating_ops_nullterm :
    (∀ (b : SB) (s : List Nat), sbWF b →
      sbWF (builder_append_context b s) ∧ nullTerm (builder_append_context b s))
    ∧ (∀ (b : SB) (out : List Nat), sbWF b →
      sbWF (builder_print_context b out) ∧ nullTerm (builder_print_context b out))
    ∧ (∀ (b : SB) (x y : List Nat), sbWF b → nullTerm b →
        b.len + y.length < 2 ^ 64 →
      sbWF (builder_replace_context b x y) ∧ nullTerm (builder_replace_context b x y))
    ∧ (∀ (b : SB) (start stop : Int) (v : List Nat), sbWF b →
        0 ≤ splice_norm start b.len →
        splice_norm start b.len ≤ splice_norm stop b.len →
        splice_norm stop b.len ≤ (b.len : Int) →
      sbWF (builder_splice_context b start stop v)
        ∧ nullTerm (builder_splice_context b start stop v))
    ∧ (∀ (b : SB) (s : List Nat), sbWF b → b.len + s.length + 1 ≤ b.cap →
      (builder_append_fixed b s).1 = 0 ∧ sbWF (builder_append_fixed b s).2
        ∧ nullTerm (builder_append_fixed b s).2)
    ∧ (∀ (b : SB) (out : List Nat), sbWF b → b.len + out.length + 1 ≤ b.cap →
      (builder_print_fixed b out).1 = 0 ∧ sbWF (builder_print_fixed b out).2
        ∧ nullTerm (builder_print_fixed b out).2)
    ∧ (∀ (b : SB) (x y : List Nat), sbWF b → x.length ≠ 0 →
        string_find (contents b) x ≠ (contents b).length →
        b.len + y.length < 2 ^ 64 →
        b.len - x.length + y.length + 1 ≤ b.cap →
      (builder_replace_fixed b x y).1 = 0 ∧ sbWF (builder_replace_fixed b x y).2
        ∧ nullTerm (builder_replace_fixed b x y).2)
    ∧ (∀ (b : SB) (start stop : Int) (v : List Nat), sbWF b →
        0 ≤ splice_norm start b.len →
        splice_norm start b.len ≤ splice_norm stop b.len →
        splice_norm stop b.len ≤ (b.len : Int) →
        b.len - ((splice_norm stop b.len).toNat - (splice_norm start b.len).toNat)
          + v.length + 1 ≤ b.cap →
      (builder_splice_fixed b start stop v).1 = 0
        ∧ sbWF (builder_splice_fixed b start stop v).2
        ∧ nullTerm (builder_splice_fixed b start stop v).2) := by
  refine ⟨?_, ?_, ?_, ?_, ?_, ?_, ?_, ?_⟩
  · -- builder_append_context
    intro b s hwf
    obtain ⟨hgwf, hglen, hgcap, hgcaple, hgtake, hgget⟩ :=
      appendGrow_facts b (b.len + s.length) hwf
    exact nullTerm_append_write (appendGrow b (b.len + s.length)).data
      (appendGrow b (b.len + s.length)).cap b.len s hgwf.1 (by omega)
  · -- builder_print_context
    intro b out hwf
    obtain ⟨hgwf, hglen, hgcap, hgcaple, hgtake, hgget⟩ :=
      appendGrow_facts b (b.len + out.length) hwf
    have hrem : ¬ ((appendGrow b (b.len + out.length)).cap - b.len = 0) := by omega
    have htk : out.take ((appendGrow b (b.len + out.length)).cap - b.len - 1) = out :=
      List.take_of_length_le (by omega)
    have heq : builder_print_context b out
        = ⟨listWrite (appendGrow b (b.len + out.length)).data b.len (out ++ [0]),
           b.len + out.length, (appendGrow b (b.len + out.length)).cap⟩ := by
      simp only [builder_print_context]
      rw [if_neg hrem, htk]
    rw [heq]
    exact nullTerm_append_write _ _ b.len out hgwf.1 (by omega)
  · -- builder_replace_context
    intro b x y hwf hnt hbound
    by_cases hx0 : x.length = 0
    · have heq : builder_replace_context b x y = b := by
        simp only [builder_replace_context]
        rw [if_pos hx0]
      rw [heq]
      exact ⟨hwf, hnt⟩
    · obtain ⟨h1wf, h1len, h1caple, h1take, h1get⟩ :=
        replaceGrow_facts_weak b (replaceNewLen b x y) hwf
      have hcont : contents (replaceGrow b (replaceNewLen b x y)) = contents b := by
        unfold contents
        rw [h1len, h1take b.len (by rw [hwf.1]; exact hwf.2)]
      by_cases hfound : string_find (contents b) x = (contents b).length
      · have heq : builder_replace_context b x y
            = replaceGrow b (replaceNewLen b x y) := by
          simp only [builder_replace_context]
          rw [if_neg hx0, hcont, if_pos hfound]
        rw [heq]
        have hltlen : b.len < b.data.length := by
          have e1 := hwf.1
          have e2 := hnt.2
          omega
        refine ⟨h1wf, ?_, ?_⟩
        · show (replaceGrow b (replaceNewLen b x y)).data[
            (replaceGrow b (replaceNewLen b x y)).len]? = some 0
          rw [h1len, h1get b.len hltlen]
          exact hnt.1
        · show (replaceGrow b (replaceNewLen b x y)).len + 1
            ≤ (replaceGrow b (replaceNewLen b x y)).cap
          rw [h1len]
          have e2 := hnt.2
          omega
      · have hm := string_find_found (contents b) x hfound
        have hclen : (contents b).length = b.len := by
          unfold contents
          rw [List.length_take]
          have e1 := hwf.1
          have e2 := hwf.2
          omega
        have hfx := hm.1
        rw [hclen] at hfx
        have hxle : x.length ≤ b.len := by omega
        have hnl : replaceNewLen b x y = b.len - x.length + y.length :=
          replaceNewLen_eval b x y hxle (by omega)
        have hsmall : replaceNewLen b x y + 1 < 2 ^ 64 := by
          rw [hnl]
          omega
        obtain ⟨h2wf, h2len, h2cap, h2caple, h2take, h2get⟩ :=
          replaceGrow_facts b (replaceNewLen b x y) hwf hsmall
        have heq : builder_replace_context b x y
            = ⟨listWrite (listWrite (listWrite
                (replaceGrow b (replaceNewLen b x y)).data
                (string_find (contents b) x + y.length)
                (((replaceGrow b (replaceNewLen b x y)).data.drop
                    (string_find (contents b) x + x.length)).take
                  ((replaceGrow b (replaceNewLen b x y)).len
                    - string_find (contents b) x - x.length)))
                (string_find (contents b) x) y)
              (replaceNewLen b x y) [0],
             replaceNewLen b x y,
             (replaceGrow b (replaceNewLen b x y)).cap⟩ := by
          simp only [builder_replace_context]
          rw [if_neg hx0, hcont, if_neg hfound]
        rw [heq]
        exact three_writes_ok (replaceGrow b (replaceNewLen b x y)).data
          (replaceGrow b (replaceNewLen b x y)).cap
          (string_find (contents b) x + y.length)
          (string_find (contents b) x + x.length)
          ((replaceGrow b (replaceNewLen b x y)).len
            - string_find (contents b) x - x.length)
          (string_find (contents b) x) (replaceNewLen b x y) y h2wf.1
          (by rw [h2len]; omega) (by omega) h2cap
  · -- builder_splice_context
    intro b start stop v hwf h0 hse hen
    rw [splice_norm_eval b start stop v h0 hse hen]
    have hst_le : (splice_norm start b.len).toNat ≤ (splice_norm stop b.len).toNat := by
      omega
    have hen_le : (splice_norm stop b.len).toNat ≤ b.len := by omega
    obtain ⟨hgwf, hglen, hgcap, hgcaple, hgtake, hgget⟩ :=
      spliceGrow_facts b (b.len - ((splice_norm stop b.len).toNat
        - (splice_norm start b.len).toNat) + v.length) hwf
    exact three_writes_ok _ _ _ _ _ _ _ v hgwf.1 (by omega) (by omega) hgcap
  · -- builder_append_fixed, success
    intro b s hwf hfit
    have heq : builder_append_fixed b s
        = (0, ⟨listWrite b.data b.len (s ++ [0]), b.len + s.length, b.cap⟩) := by
      unfold builder_append_fixed
      rw [if_neg (by omega)]
    rw [heq]
    have hh := nullTerm_append_write b.data b.cap b.len s hwf.1 hfit
    exact ⟨rfl, hh.1, hh.2⟩
  · -- builder_print_fixed, success
    intro b out hwf hfit
    have hwf2 := hwf.2
    have hrem : ¬ (b.cap - b.len = 0) := by omega
    have htk : out.take (b.cap - b.len - 1) = out :=
      List.take_of_length_le (by omega)
    have hng : ¬ (((out.length + 1 : Nat) : Int) - ((b.cap - b.len : Nat) : Int) > 0) := by
      omega
    have heq : builder_print_fixed b out
        = (0, ⟨listWrite b.data b.len (out ++ [0]),
            b.len + (out.length + 1 - 1), b.cap⟩) := by
      simp only [builder_print_fixed]
      rw [if_neg hrem, htk, if_neg hng]
    rw [heq]
    have hh := nullTerm_append_write b.data b.cap b.len out hwf.1 hfit
    exact ⟨rfl, hh.1, hh.2⟩
  · -- builder_replace_fixed, success
    intro b x y hwf hx0 hfound hbound hfit
    have hm := string_find_found (contents b) x hfound
    have hclen : (contents b).length = b.len := by
      unfold contents
      rw [List.length_take]
      have e1 := hwf.1
      have e2 := hwf.2
      omega
    have hfx := hm.1
    rw [hclen] at hfx
    have hxle : x.length ≤ b.len := by omega
    have hnl : replaceNewLen b x y = b.len - x.length + y.length :=
      replaceNewLen_eval b x y hxle (by omega)
    have hfitg : ¬ ((replaceNewLen b x y + 1) % 2 ^ 64 > b.cap) := by
      rw [hnl, Nat.mod_eq_of_lt (by omega)]
      omega
    have heq : builder_replace_fixed b x y
        = (0, ⟨listWrite (listWrite (listWrite b.data
              (string_find (contents b) x + y.length)
              ((b.data.drop (string_find (contents b) x + x.length)).take
                (b.len - string_find (contents b) x - x.length)))
              (string_find (contents b) x) y)
            (replaceNewLen b x y) [0],
           replaceNewLen b x y, b.cap⟩) := by
      simp only [builder_replace_fixed]
      rw [if_neg hx0, if_neg hfitg, if_neg hfound]
    rw [heq]
    have hh := three_writes_ok b.data b.cap
      (string_find (contents b) x + y.length)
      (string_find (contents b) x + x.length)
      (b.len - string_find (contents b) x - x.length)
      (string_find (contents b) x) (replaceNewLen b x y) y hwf.1
      (by omega) (by omega) (by rw [hnl]; omega)
    exact ⟨rfl, hh.1, hh.2⟩
  · -- builder_splice_fixed, success
    intro b start stop v hwf h0 hse hen hfit
    have heq : builder_splice_fixed b start stop v
        = (0, ⟨listWrite (listWrite (listWrite b.data
              ((splice_norm start b.len).toNat + v.length)
              ((b.data.drop (splice_norm stop b.len).toNat).take
                (b.len - (splice_norm stop b.len).toNat)))
              (splice_norm start b.len).toNat v)
            (b.len - ((splice_norm stop b.len).toNat
              - (splice_norm start b.len).toNat) + v.length) [0],
           b.len - ((splice_norm stop b.len).toNat
             - (splice_norm start b.len).toNat) + v.length, b.cap⟩) := by
      simp only [builder_splice_fixed]
      rw [if_pos ⟨h0, le_trans h0 hse, hse, hen⟩, if_neg (by omega)]
    rw [heq]
    have hst_le : (splice_norm start b.len).toNat ≤ (splice_norm stop b.len).toNat := by
      omega
    have hen_le : (splice_norm stop b.len).toNat ≤ b.len := by omega
    have hh := three_writes_ok b.data b.cap
      ((splice_norm start b.len).toNat + v.length)
      (splice_norm stop b.len).toNat
      (b.len - (splice_norm stop b.len).toNat)
      (splice_norm start b.len).toNat
      (b.len - ((splice_norm stop b.len).toNat
        - (splice_norm start b.len).toNat) + v.length) v hwf.1
      (by omega) (by omega) (by omega)
    exact ⟨rfl, hh.1, hh.2⟩

/-- Witness for C1 amended: concrete successful operations — append to a
zero builder, fixed append into a capacity-4 buffer, splice and replace on a
builder holding "abc" — all leave a terminated, well-formed builder. -/
theorem mutating_ops_nullterm_w :
    (sbWF (builder_append_context ⟨[], 0, 0⟩ [104, 105])
      ∧ nullTerm (builder_append_context ⟨[], 0, 0⟩ [104, 105]))
    ∧ ((builder_append_fixed ⟨[0, 0, 0, 0], 0, 4⟩ [104]).1 = 0
      ∧ nullTerm (builder_append_fixed ⟨[0, 0, 0, 0], 0, 4⟩ [104]).2)
    ∧ (sbWF (builder_splice_context ⟨[97, 98, 99, 0], 3, 4⟩ 1 2 [100, 101])
      ∧ nullTerm (builder_splice_context ⟨[97, 98, 99, 0], 3, 4⟩ 1 2 [100, 101]))
    ∧ (sbWF (builder_replace_context ⟨[97, 98, 99, 0], 3, 4⟩ [98] [100, 101])
      ∧ nullTerm (builder_replace_context ⟨[97, 98, 99, 0], 3, 4⟩ [98] [100, 101])) := by
  have h := mutating_ops_nullterm
  refine ⟨h.1 ⟨[], 0, 0⟩ [104, 105] (by decide), ?_, ?_, ?_⟩
  · have ha := h.2.2.2.2.1 ⟨[0, 0, 0, 0], 0, 4⟩ [104] (by decide) (by decide)
    exact ⟨ha.1, ha.2.2⟩
  · exact h.2.2.2.1 ⟨[97, 98, 99, 0], 3, 4⟩ 1 2 [100, 101] (by decide) (by decide)
      (by decide) (by decide)
  · exact h.2.2.1 ⟨[97, 98, 99, 0], 3, 4⟩ [98] [100, 101] (by decide) (by decide)
      (by decide)

/-- C5: evaluation of `string_parse_int` at the claim's inputs.  The dead
end-pointer comparison makes the invalid-input kind unreachable on the
strtol path: the empty string parses "successfully" storing 0, and "abc" is
reported as trailing characters — both contradicting the claim that every
empty or invalid input yields the invalid-input kind.  The scenario inputs
behave as stated: "3.2" gives the trailing-characters kind,
"99999999999999999999" the range kind, "  2" succeeds storing 2. -/
theorem string_parse_int_eval :
    string_parse_int [] = (STRTOL_SUCCESS, some 0)
    ∧ string_parse_int [97, 98, 99] = (STRTOL_EXTRA, none)
    ∧ string_parse_int [51, 46, 50] = (STRTOL_EXTRA, none)
    ∧ string_parse_int [57, 57, 57, 57, 57, 57, 57, 57, 57, 57,
        57, 57, 57, 57, 57, 57, 57, 57, 57, 57] = (STRTOL_RANGE, none)
    ∧ string_parse_int [32, 32, 50] = (STRTOL_SUCCESS, some 2) := by
  decide

lemma memWriteCell_eq (mem : Nat → Nat) (addr v : Nat) :
    memWriteCell mem addr v addr = v := by
  unfold memWriteCell
  rw [if_pos rfl]

lemma memWriteCell_ne (mem : Nat → Nat) (addr v a : Nat) (h : a ≠ addr) :
    memWriteCell mem addr v a = mem a := by
  unfold memWriteCell
  rw [if_neg h]

lemma memCopy_in (mem : Nat → Nat) (dst src n a : Nat)
    (h : dst ≤ a ∧ a < dst + n) : memCopy mem dst src n a = mem (src + (a - dst)) := by
  unfold memCopy
  rw [if_pos h]

lemma memCopy_out (mem : Nat → Nat) (dst src n a : Nat)
    (h : ¬ (dst ≤ a ∧ a < dst + n)) : memCopy mem dst src n a = mem a := by
  unfold memCopy
  rw [if_neg h]

/-- Growing never touches the memory contents. -/
lemma arena_grow_mem (σ : ArenaSt) (r : Nat) : (arena_grow σ r).mem = σ.mem := by
  unfold arena_grow arena_create
  split_ifs <;> rfl

/-- Growing never moves the write frontier below any already-allocated byte:
everything at or below base + len stays at or below the new base + len. -/
lemma arena_grow_front (σ : ArenaSt) (r : Nat) (hlen : σ.len ≤ σ.cap)
    (hcap : σ.base + σ.cap ≤ σ.next) :
    σ.base + σ.len ≤ (arena_grow σ r).base + (arena_grow σ r).len := by
  unfold arena_grow arena_create
  split_ifs with h1 h2
  · show σ.base + σ.len ≤ σ.next + 0
    omega
  · show σ.base + σ.len ≤ σ.next + 0
    omega
  · exact le_refl _

/-- The allocation phase returns a pointer whose first `min old size` bytes
are copied from `p`, and records `size` in the header word before it —
provided the header before `p` records `old`, `p` is a real payload pointer
(at least one header below it), and `p`'s bytes lie at or below the write
frontier. -/
lemma arena_alloc_step_spec (σ1 : ArenaSt) (p old size : Nat)
    (hhdr : σ1.mem (p - 8) = old) (hp : 8 ≤ p)
    (hfront : p + old ≤ σ1.base + σ1.len) (hsize : 0 < size) :
    (∀ i, i < min old size →
      (arena_alloc_step σ1 p size).1.mem ((arena_alloc_step σ1 p size).2 + i)
        = σ1.mem (p + i))
    ∧ (arena_alloc_step σ1 p size).1.mem ((arena_alloc_step σ1 p size).2 - 8)
        = size := by
  have hp0 : p ≠ 0 := by omega
  constructor
  · intro i hi
    show (if p ≠ 0 ∧ 0 < size then
        memCopy (memWriteCell σ1.mem (σ1.base + σ1.len) size) (σ1.base + σ1.len + 8) p
          (min (memWriteCell σ1.mem (σ1.base + σ1.len) size (p - 8)) size)
      else memWriteCell σ1.mem (σ1.base + σ1.len) size)
      (σ1.base + σ1.len + 8 + i) = σ1.mem (p + i)
    rw [if_pos ⟨hp0, hsize⟩,
      memWriteCell_ne σ1.mem (σ1.base + σ1.len) size (p - 8) (by omega), hhdr,
      memCopy_in _ _ _ _ _ ⟨by omega, by omega⟩,
      show p + (σ1.base + σ1.len + 8 + i - (σ1.base + σ1.len + 8)) = p + i by omega,
      memWriteCell_ne _ _ _ _ (by omega)]
  · show (if p ≠ 0 ∧ 0 < size then
        memCopy (memWriteCell σ1.mem (σ1.base + σ1.len) size) (σ1.base + σ1.len + 8) p
          (min (memWriteCell σ1.mem (σ1.base + σ1.len) size (p - 8)) size)
      else memWriteCell σ1.mem (σ1.base + σ1.len) size)
      (σ1.base + σ1.len + 8 - 8) = size
    rw [if_pos ⟨hp0, hsize⟩,
      memWriteCell_ne σ1.mem (σ1.base + σ1.len) size (p - 8) (by omega), hhdr,
      memCopy_out _ _ _ _ _ (by omega),
      show σ1.base + σ1.len + 8 - 8 = σ1.base + σ1.len by omega,
      memWriteCell_eq]

/-- C4: for every arena state and every pointer `p` previously returned for
a request of `old` bytes — so the header word immediately preceding `p`
records `old`, `p` is a payload pointer (`8 <= p`), its bytes lie at or
below the arena's write frontier, and the struct is well formed
(`len <= cap`, buffer below the malloc frontier) — reallocating to
`new_size > 0` returns a pointer whose first `min old new_size` bytes equal
the first `min old new_size` bytes of `p`, and records `new_size` in the
header word immediately preceding the returned pointer. -/
theorem arena_realloc_preserves (σ : ArenaSt) (p old size : Nat)
    (hhdr : σ.mem (p - 8) = old)
    (hp : 8 ≤ p)
    (hbound : p + old ≤ σ.base + σ.len)
    (hlen : σ.len ≤ σ.cap)
    (hcap : σ.base + σ.cap ≤ σ.next)
    (hsize : 0 < size) :
    (∀ i, i < min old size →
      (arena_realloc_into σ p size).1.mem ((arena_realloc_into σ p size).2 + i)
        = σ.mem (p + i))
    ∧ (arena_realloc_into σ p size).1.mem ((arena_realloc_into σ p size).2 - 8)
        = size := by
  have hpz : ¬ (p = 0 ∧ size = 0) := by
    rintro ⟨h1, _⟩
    omega
  have hmem := arena_grow_mem σ (ALIGN_UP8 (size + 8))
  have hfront2 : p + old ≤ (arena_grow σ (ALIGN_UP8 (size + 8))).base
      + (arena_grow σ (ALIGN_UP8 (size + 8))).len :=
    le_trans hbound (arena_grow_front σ (ALIGN_UP8 (size + 8)) hlen hcap)
  have heval : arena_realloc_into σ p size
      = arena_alloc_step (arena_grow σ (ALIGN_UP8 (size + 8))) p size := by
    unfold arena_realloc_into
    rw [if_neg hpz]
  rw [heval]
  have hspec := arena_alloc_step_spec (arena_grow σ (ALIGN_UP8 (size + 8))) p old size
    (by rw [hmem]; exact hhdr) hp hfront2 hsize
  rw [hmem] at hspec
  exact hspec

/-- Witness for C4: an arena whose buffer at address 0 holds one allocation
(header 2 at cell 0, payload bytes 11 and 22 at addresses 8 and 9);
regrowing the payload pointer 8 to one byte copies the byte 11 and records
the size 1 before the new pointer. -/
theorem arena_realloc_preserves_w :
    (∀ i, i < min 2 1 →
      (arena_realloc_into ⟨fun a => if a = 0 then 2 else if a = 8 then 11
          else if a = 9 then 22 else 7, 0, 16, 64, [], 100⟩ 8 1).1.mem
        ((arena_realloc_into ⟨fun a => if a = 0 then 2 else if a = 8 then 11
          else if a = 9 then 22 else 7, 0, 16, 64, [], 100⟩ 8 1).2 + i)
        = (fun a => if a = 0 then 2 else if a = 8 then 11
            else if a = 9 then 22 else 7 : Nat → Nat) (8 + i))
    ∧ (arena_realloc_into ⟨fun a => if a = 0 then 2 else if a = 8 then 11
          else if a = 9 then 22 else 7, 0, 16, 64, [], 100⟩ 8 1).1.mem
        ((arena_realloc_into ⟨fun a => if a = 0 then 2 else if a = 8 then 11
          else if a = 9 then 22 else 7, 0, 16, 64, [], 100⟩ 8 1).2 - 8) = 1 :=
  arena_realloc_preserves
    ⟨fun a => if a = 0 then 2 else if a = 8 then 11 else if a = 9 then 22 else 7,
      0, 16, 64, [], 100⟩ 8 2 1
    (by decide) (by decide) (by decide) (by decide) (by decide) (by decide)
